import Mathlib

/-!
Verification of the Avogadro `Cube` regular 3D grid (src/avogadro/qtgui/cube.h).

The repository ships only the header: the single inline member
`Cube::setValue(unsigned int, double)` (cube.h lines 233-245) is the one
operation whose body is in the source tree.  Every other operation is only
declared in the header; its behaviour is modelled from the specification
(spec.md sections 4.1-4.3), and each such definition carries a doc comment
starting with `Modelled from the spec:`.

Doubles are embedded as rationals (exact arithmetic), `std::vector<double>`
as `List ℚ`, the C++ integer vectors as triples of `ℤ`, and the raw
`QReadWriteLock*` handle as a `ℕ` token (the core never dereferences it).
-/

namespace AvogadroCube

/-- Embedding of `Vector3` (three doubles) as exact rationals. -/
structure Vector3 where
  x : ℚ
  y : ℚ
  z : ℚ
deriving DecidableEq

/-- Embedding of `Vector3i` (three machine ints) as mathematical integers. -/
structure Vector3i where
  x : ℤ
  y : ℤ
  z : ℤ
deriving DecidableEq

/-- The `Cube::Type` enum of cube.h lines 51-58. -/
inductive CubeType where
  | VdW
  | ESP
  | ElectronDensity
  | MO
  | FromFile
  | NoneT
deriving DecidableEq

/-- The `Cube` member fields, cube.h lines 224-230.  `m_lock` is the
raw `QReadWriteLock*` pointer handle, embedded as a plain token. -/
structure Cube where
  m_data : List ℚ
  m_min : Vector3
  m_max : Vector3
  m_spacing : Vector3
  m_points : Vector3i
  m_minValue : ℚ
  m_maxValue : ℚ
  m_name : String
  m_cubeType : CubeType
  m_lock : ℕ
deriving DecidableEq

/-- `Cube::setValue(unsigned int i, double value_)`, cube.h lines 233-245,
the inline body present in the source: bounds check against
`m_data.size()`, write the sample, widen each extremum only when the new
value strictly passes it, return `true`; out of range returns `false`
with no mutation. -/
def Cube.setValue (c : Cube) (i : ℕ) (value_ : ℚ) : Bool × Cube :=
  if i < c.m_data.length then
    (true,
      { c with
        m_data := c.m_data.set i value_
        m_maxValue := if value_ > c.m_maxValue then value_ else c.m_maxValue
        m_minValue := if value_ < c.m_minValue then value_ else c.m_minValue })
  else
    (false, c)

/-- Modelled from the spec: the linear encoding of section 4.1
(`index = i·(ny·nz) + j·nz + k`, k fastest, i slowest); the encoding is
used by the missing cube.cpp bodies of `value`, `setValue(i,j,k,v)`,
`position` and `closestIndex`. -/
def Cube.encode (c : Cube) (i j k : ℤ) : ℤ :=
  i * (c.m_points.y * c.m_points.z) + j * c.m_points.z + k

/-- Modelled from the spec: `Cube::setValue(int i, int j, int k, double)`
(declared cube.h line 191, body missing): fails with no mutation when any
of i, j, k is outside `[0, dimensions)` on its axis, otherwise funnels
through the same bounds check and extrema update as the linear-index
`setValue` (spec sections 4.2 and 9). -/
def Cube.setValueIJK (c : Cube) (i j k : ℤ) (v : ℚ) : Bool × Cube :=
  if 0 ≤ i ∧ i < c.m_points.x ∧ 0 ≤ j ∧ j < c.m_points.y ∧
     0 ≤ k ∧ k < c.m_points.z then
    c.setValue (c.encode i j k).toNat v
  else
    (false, c)

/-- Floor of a rational as the rounded-toward-minus-infinity integer
quotient of numerator by denominator; an executable form of `Int.floor`
(see `ratFloor_eq`). -/
def ratFloor (q : ℚ) : ℤ :=
  q.num / (q.den : ℤ)

/-- Round-to-nearest on rationals as floor of `q + 1/2`; an executable
form of `round` (see `ratRound_eq`). -/
def ratRound (q : ℚ) : ℤ :=
  ratFloor (q + 1 / 2)

/-- Modelled from the spec: decoding a linear index back to lattice
coordinates, the inverse of the section 4.1 encoding (`i` slowest, `k`
fastest); used by the missing cube.cpp body of `Cube::position`. -/
def Cube.decode (c : Cube) (n : ℕ) : ℕ × ℕ × ℕ :=
  let ny := c.m_points.y.toNat
  let nz := c.m_points.z.toNat
  (n / (ny * nz), n % (ny * nz) / nz, n % (ny * nz) % nz)

/-- Modelled from the spec: `Cube::position(unsigned int)` (declared cube.h
line 152, body missing): decode the linear index into lattice coordinates
`(i, j, k)`, then return `origin + spacing ⊙ (i, j, k)` (section 4.1). -/
def Cube.position (c : Cube) (n : ℕ) : Vector3 :=
  ⟨c.m_min.x + c.m_spacing.x * (c.decode n).1,
   c.m_min.y + c.m_spacing.y * (c.decode n).2.1,
   c.m_min.z + c.m_spacing.z * (c.decode n).2.2⟩

/-- Modelled from the spec: clamping an integer lattice coordinate into the
valid range `[0, n − 1]` of an axis with `n` points; this is both the
rounding clamp of `indexVector`/`closestIndex` (section 4.1) and the
corner-index edge policy of the Interpolation Engine (section 4.3). -/
def clampIdx (a n : ℤ) : ℤ :=
  min (max a 0) (n - 1)

/-- Modelled from the spec: `Cube::indexVector` (declared cube.h line 146,
body missing): round `(position − origin) / spacing` per axis to the
nearest integer and clamp into `[0, dim − 1]` (section 4.1). -/
def Cube.indexVector (c : Cube) (p : Vector3) : Vector3i :=
  ⟨clampIdx (ratRound ((p.x - c.m_min.x) / c.m_spacing.x)) c.m_points.x,
   clampIdx (ratRound ((p.y - c.m_min.y) / c.m_spacing.y)) c.m_points.y,
   clampIdx (ratRound ((p.z - c.m_min.z) / c.m_spacing.z)) c.m_points.z⟩

/-- Modelled from the spec: `Cube::closestIndex` (declared cube.h line 140,
body missing): the same rounding and clamping as `indexVector`, encoded to
a linear index (section 4.1). -/
def Cube.closestIndex (c : Cube) (p : Vector3) : ℤ :=
  let v := c.indexVector p
  c.encode v.x v.y v.z

/-- Modelled from the spec: the per-axis spacing computed by the
points-based `setLimits` — `(extent − origin) / (dim − 1)` with the
degenerate guard defining spacing as 0 on an axis with dimension ≤ 1
(section 4.1). -/
def axisSpacing (lo hi : ℚ) (n : ℤ) : ℚ :=
  if n ≤ 1 then 0 else (hi - lo) / ((n : ℚ) - 1)

/-- Modelled from the spec: `Cube::setLimits(min, max, points)` (declared
cube.h line 86, body missing): fails with no mutation when a dimension is
negative or `extent < origin` on an axis; otherwise installs the geometry,
computes the guarded per-axis spacing, reallocates `samples` zero-filled at
the new size and resets the extrema to the neutral baseline 0
(sections 3 and 4.1). -/
def Cube.setLimitsPoints (c : Cube) (mn mx : Vector3) (points : Vector3i) :
    Bool × Cube :=
  if points.x < 0 ∨ points.y < 0 ∨ points.z < 0 ∨
     mx.x < mn.x ∨ mx.y < mn.y ∨ mx.z < mn.z then
    (false, c)
  else
    (true,
      { c with
        m_min := mn
        m_max := mx
        m_spacing := ⟨axisSpacing mn.x mx.x points.x,
                      axisSpacing mn.y mx.y points.y,
                      axisSpacing mn.z mx.z points.z⟩
        m_points := points
        m_data := List.replicate
          (points.x.toNat * points.y.toNat * points.z.toNat) 0
        m_minValue := 0
        m_maxValue := 0 })

/-- Modelled from the spec: `Cube::setLimits(min, max, spacing)` (declared
cube.h line 95, body missing): fails when `spacing ≤ 0` or `extent <
origin`; computes `dimensions = round((extent − origin) / spacing) + 1` per
axis, silently adjusts the extent to exactly fit the computed lattice, and
delegates to the points-based form (section 4.1). -/
def Cube.setLimitsSpacing (c : Cube) (mn mx : Vector3) (spacing_ : ℚ) :
    Bool × Cube :=
  if spacing_ ≤ 0 ∨ mx.x < mn.x ∨ mx.y < mn.y ∨ mx.z < mn.z then
    (false, c)
  else
    let nx := ratRound ((mx.x - mn.x) / spacing_) + 1
    let ny := ratRound ((mx.y - mn.y) / spacing_) + 1
    let nz := ratRound ((mx.z - mn.z) / spacing_) + 1
    let adj : Vector3 :=
      ⟨mn.x + spacing_ * ((nx : ℚ) - 1),
       mn.y + spacing_ * ((ny : ℚ) - 1),
       mn.z + spacing_ * ((nz : ℚ) - 1)⟩
    c.setLimitsPoints mn adj ⟨nx, ny, nz⟩

/-- Modelled from the spec: `Cube::setLimits(min, dim, spacing)` (declared
cube.h line 104, body missing): fails under the same dimension/spacing
constraints; computes `extent = origin + spacing ⊙ (dim − 1)` and delegates
to the points-based form (section 4.1). -/
def Cube.setLimitsDim (c : Cube) (mn : Vector3) (dim : Vector3i)
    (spacing_ : ℚ) : Bool × Cube :=
  if spacing_ ≤ 0 ∨ dim.x < 0 ∨ dim.y < 0 ∨ dim.z < 0 then
    (false, c)
  else
    let mx : Vector3 :=
      ⟨mn.x + spacing_ * ((dim.x : ℚ) - 1),
       mn.y + spacing_ * ((dim.y : ℚ) - 1),
       mn.z + spacing_ * ((dim.z : ℚ) - 1)⟩
    c.setLimitsPoints mn mx dim

/-- Modelled from the spec: `Cube::setLimits(const Cube &)` (declared
cube.h line 111, body missing): copies the geometry fields of an existing
grid, reallocates `samples` zero-filled at the matching size without
copying values, and resets the extrema (sections 3 and 4.1). -/
def Cube.setLimitsCopy (c other : Cube) : Bool × Cube :=
  (true,
    { c with
      m_min := other.m_min
      m_max := other.m_max
      m_spacing := other.m_spacing
      m_points := other.m_points
      m_data := List.replicate
        (other.m_points.x.toNat * other.m_points.y.toNat *
          other.m_points.z.toNat) 0
      m_minValue := 0
      m_maxValue := 0 })

/-- Modelled from the spec: `Cube::setLimits(const Molecule &, double,
double)` (declared cube.h line 119, body missing): the molecule
collaborator is reduced to its enumerable set of atomic positions
(section 6); the operation fails on an empty atom set, otherwise computes
the axis-aligned bounding box expanded by `padding` on every side and
delegates to the spacing-based form (section 4.1). -/
def Cube.setLimitsMol (c : Cube) (atoms : List Vector3)
    (spacing_ padding : ℚ) : Bool × Cube :=
  match atoms with
  | [] => (false, c)
  | a :: rest =>
    let lo : Vector3 :=
      ⟨(rest.map Vector3.x).foldl min a.x - padding,
       (rest.map Vector3.y).foldl min a.y - padding,
       (rest.map Vector3.z).foldl min a.z - padding⟩
    let hi : Vector3 :=
      ⟨(rest.map Vector3.x).foldl max a.x + padding,
       (rest.map Vector3.y).foldl max a.y + padding,
       (rest.map Vector3.z).foldl max a.z + padding⟩
    c.setLimitsSpacing lo hi spacing_

/-- Modelled from the spec: the full-scan minimum over the sample list,
used by the extrema recomputation of `setData`/`addData` (section 4.2);
the empty scan yields the neutral baseline 0. -/
def scanMin : List ℚ → ℚ
  | [] => 0
  | v :: rest => rest.foldl min v

/-- Modelled from the spec: the full-scan maximum over the sample list,
used by the extrema recomputation of `setData`/`addData` (section 4.2). -/
def scanMax : List ℚ → ℚ
  | [] => 0
  | v :: rest => rest.foldl max v

/-- Modelled from the spec: `Cube::setData` (declared cube.h line 129,
body missing): fails with no mutation when the value count does not match
the allocated sample count; otherwise replaces `samples` wholesale and
recomputes both extrema by a full scan (section 4.2). -/
def Cube.setData (c : Cube) (values : List ℚ) : Bool × Cube :=
  if values.length = c.m_data.length then
    (true,
      { c with
        m_data := values
        m_minValue := scanMin values
        m_maxValue := scanMax values })
  else
    (false, c)

/-- Modelled from the spec: `Cube::addData` (declared cube.h line 134,
body missing): fails with no mutation on length mismatch; otherwise
accumulates elementwise (`samples[n] += values[n]`) and recomputes both
extrema by a full scan of the accumulated samples (section 4.2). -/
def Cube.addData (c : Cube) (values : List ℚ) : Bool × Cube :=
  if values.length = c.m_data.length then
    let accum := List.zipWith (· + ·) c.m_data values
    (true,
      { c with
        m_data := accum
        m_minValue := scanMin accum
        m_maxValue := scanMax accum })
  else
    (false, c)

/-- Modelled from the spec: the bounds-checked direct sample lookup
`Cube::value(int, int, int)` (declared cube.h line 158, body missing) via
the linear encoding, guarded against out-of-range lattice coordinates
(section 4.2); `none` signals an out-of-range read. -/
def Cube.valueOpt (c : Cube) (i j k : ℤ) : Option ℚ :=
  if 0 ≤ i ∧ i < c.m_points.x ∧ 0 ≤ j ∧ j < c.m_points.y ∧
     0 ≤ k ∧ k < c.m_points.z then
    c.m_data.get? (c.encode i j k).toNat
  else
    none

/-- Modelled from the spec: linear interpolation `(1 − t)·a + t·b`, the
blend primitive of the Interpolation Engine (section 4.3). -/
def lerp (a b t : ℚ) : ℚ :=
  (1 - t) * a + t * b

/-- Modelled from the spec: the trilinear Interpolation Engine of section
4.3 on continuous lattice coordinates: floor to the low corner, take the
fractional offsets, gather the 8 corner samples with every corner index
clamped into the valid range (the edge policy, applied transitively for
positions outside the box), then blend along x, then y, then z. -/
def Cube.trilinear (c : Cube) (cx cy cz : ℚ) : Option ℚ :=
  let i := ratFloor cx
  let j := ratFloor cy
  let k := ratFloor cz
  let tx := cx - (i : ℚ)
  let ty := cy - (j : ℚ)
  let tz := cz - (k : ℚ)
  let i0 := clampIdx i c.m_points.x
  let i1 := clampIdx (i + 1) c.m_points.x
  let j0 := clampIdx j c.m_points.y
  let j1 := clampIdx (j + 1) c.m_points.y
  let k0 := clampIdx k c.m_points.z
  let k1 := clampIdx (k + 1) c.m_points.z
  (c.valueOpt i0 j0 k0).bind fun v000 =>
  (c.valueOpt i1 j0 k0).bind fun v100 =>
  (c.valueOpt i0 j1 k0).bind fun v010 =>
  (c.valueOpt i1 j1 k0).bind fun v110 =>
  (c.valueOpt i0 j0 k1).bind fun v001 =>
  (c.valueOpt i1 j0 k1).bind fun v101 =>
  (c.valueOpt i0 j1 k1).bind fun v011 =>
  (c.valueOpt i1 j1 k1).bind fun v111 =>
  some (lerp (lerp (lerp v000 v100 tx) (lerp v010 v110 tx) ty)
             (lerp (lerp v001 v101 tx) (lerp v011 v111 tx) ty) tz)

/-- Modelled from the spec: `Cube::value(const Vector3 &)` (declared
cube.h line 182, body missing): compute the continuous lattice coordinates
`(p − origin) / spacing` and evaluate the trilinear interpolation there
(section 4.3). -/
def Cube.value (c : Cube) (p : Vector3) : Option ℚ :=
  c.trilinear ((p.x - c.m_min.x) / c.m_spacing.x)
              ((p.y - c.m_min.y) / c.m_spacing.y)
              ((p.z - c.m_min.z) / c.m_spacing.z)

/-- Modelled from the spec: `Cube::valuef` (declared cube.h line 173, body
missing) implements the identical algorithm as `Cube::value(const Vector3
&)` over the reduced-precision width; in this exact-arithmetic embedding
the two coincide (section 4.3). -/
def Cube.valuef (c : Cube) (p : Vector3) : Option ℚ :=
  c.value p

/-- Modelled from the spec: the freshly constructed empty grid of the
section 3 lifecycle — `dimensions = (0,0,0)`, empty samples, neutral
extrema. -/
def cube0 : Cube :=
  ⟨[], ⟨0, 0, 0⟩, ⟨0, 0, 0⟩, ⟨0, 0, 0⟩, ⟨0, 0, 0⟩, 0, 0, "", CubeType.NoneT, 0⟩

/-- Folding a sequence of single-index `setValue` writes over a grid,
keeping the resulting state of each call (the returned flag is dropped). -/
def applyWrites (c : Cube) (ws : List (ℕ × ℚ)) : Cube :=
  ws.foldl (fun s w => (s.setValue w.1 w.2).2) c

/-- The extrema invariant of spec section 3 (invariant 3): every currently
stored sample lies between `minValue` and `maxValue`. -/
def extremaInv (c : Cube) : Prop :=
  ∀ v ∈ c.m_data, c.m_minValue ≤ v ∧ v ≤ c.m_maxValue

/-- The fresh-store postcondition of spec section 3: the sample store has
exactly `nx·ny·nz` zero-filled entries and the extrema sit at the neutral
baseline. -/
def freshStoreOK (c : Cube) : Prop :=
  c.m_data.length =
    c.m_points.x.toNat * c.m_points.y.toNat * c.m_points.z.toNat ∧
  (∀ v ∈ c.m_data, v = 0) ∧ c.m_minValue = 0 ∧ c.m_maxValue = 0

theorem ratFloor_eq (q : ℚ) : ratFloor q = ⌊q⌋ :=
  Rat.floor_def.symm

theorem ratRound_eq (q : ℚ) : ratRound q = round q := by
  rw [ratRound, ratFloor_eq, round_eq]

/-- A concrete 2×2×2 grid over the unit box, used to instantiate the
claims on explicit inputs. -/
def cube2 : Cube :=
  (cube0.setLimitsPoints ⟨0, 0, 0⟩ ⟨1, 1, 1⟩ ⟨2, 2, 2⟩).2

/-- The 2×2×2 grid filled with the samples 1..8 in linear order. -/
def cube8 : Cube :=
  (cube2.setData [1, 2, 3, 4, 5, 6, 7, 8]).2

theorem setValue_lt (c : Cube) (n : ℕ) (v : ℚ) (h : n < c.m_data.length) :
    c.setValue n v =
      (true,
        { c with
          m_data := c.m_data.set n v
          m_maxValue := max c.m_maxValue v
          m_minValue := min c.m_minValue v }) := by
  have hmax : (if v > c.m_maxValue then v else c.m_maxValue) =
      max c.m_maxValue v := by
    rw [max_def]; split_ifs with h1 h2 <;> first | rfl | linarith
  have hmin : (if v < c.m_minValue then v else c.m_minValue) =
      min c.m_minValue v := by
    rw [min_def]; split_ifs with h1 h2 <;> first | rfl | linarith
  unfold Cube.setValue
  rw [if_pos h, hmax, hmin]

theorem setValue_ge (c : Cube) (n : ℕ) (v : ℚ) (h : c.m_data.length ≤ n) :
    c.setValue n v = (false, c) := by
  unfold Cube.setValue
  rw [if_neg (by omega)]

theorem encodeNat_lt (I J K NX NY NZ : ℕ) (hI : I < NX) (hJ : J < NY)
    (hK : K < NZ) : I * (NY * NZ) + J * NZ + K < NX * NY * NZ := by
  have h1 : J * NZ + K < NY * NZ := by
    calc J * NZ + K < J * NZ + NZ := by omega
      _ = (J + 1) * NZ := by ring
      _ ≤ NY * NZ := Nat.mul_le_mul_right NZ (by omega)
  calc I * (NY * NZ) + J * NZ + K = I * (NY * NZ) + (J * NZ + K) := by ring
    _ < I * (NY * NZ) + NY * NZ := by omega
    _ = (I + 1) * (NY * NZ) := by ring
    _ ≤ NX * (NY * NZ) := Nat.mul_le_mul_right (NY * NZ) (by omega)
    _ = NX * NY * NZ := by ring

theorem encode_toNat (c : Cube) (i j k : ℤ) (hi : 0 ≤ i) (hj : 0 ≤ j)
    (hj2 : j < c.m_points.y) (hk : 0 ≤ k) (hk2 : k < c.m_points.z) :
    (c.encode i j k).toNat =
      i.toNat * (c.m_points.y.toNat * c.m_points.z.toNat) +
        j.toNat * c.m_points.z.toNat + k.toNat := by
  have hy : (0 : ℤ) ≤ c.m_points.y := le_trans hj hj2.le
  have hz : (0 : ℤ) ≤ c.m_points.z := le_trans hk hk2.le
  have h1 : c.encode i j k =
      ((i.toNat * (c.m_points.y.toNat * c.m_points.z.toNat) +
          j.toNat * c.m_points.z.toNat + k.toNat : ℕ) : ℤ) := by
    unfold Cube.encode
    push_cast [Int.toNat_of_nonneg hi, Int.toNat_of_nonneg hj,
      Int.toNat_of_nonneg hk, Int.toNat_of_nonneg hy, Int.toNat_of_nonneg hz]
    ring
  rw [h1, Int.toNat_natCast]

theorem encode_toNat_lt (c : Cube) (i j k : ℤ) (hi : 0 ≤ i)
    (hi2 : i < c.m_points.x) (hj : 0 ≤ j) (hj2 : j < c.m_points.y)
    (hk : 0 ≤ k) (hk2 : k < c.m_points.z)
    (hlen : c.m_data.length =
      c.m_points.x.toNat * c.m_points.y.toNat * c.m_points.z.toNat) :
    (c.encode i j k).toNat < c.m_data.length := by
  rw [hlen, encode_toNat c i j k hi hj hj2 hk hk2]
  exact encodeNat_lt _ _ _ _ _ _ (by omega) (by omega) (by omega)

/-- C2: `setValue(i, j, k, v)` and `setValue(linearIndex, v)` return false
and mutate nothing when the index is out of range ([0, dimensions) per
axis, respectively [0, samples.length)); in range they write `v` into the
addressed sample, return true, and unconditionally expand
`minValue`/`maxValue` to include `v`. -/
theorem setValue_bounds_spec (c : Cube) (n : ℕ) (i j k : ℤ) (v : ℚ) :
    (c.m_data.length ≤ n → c.setValue n v = (false, c)) ∧
    (n < c.m_data.length →
      (c.setValue n v).1 = true ∧
      (c.setValue n v).2.m_data = c.m_data.set n v ∧
      (c.setValue n v).2.m_maxValue = max c.m_maxValue v ∧
      (c.setValue n v).2.m_minValue = min c.m_minValue v) ∧
    (¬ (0 ≤ i ∧ i < c.m_points.x ∧ 0 ≤ j ∧ j < c.m_points.y ∧
        0 ≤ k ∧ k < c.m_points.z) →
      c.setValueIJK i j k v = (false, c)) ∧
    ((0 ≤ i ∧ i < c.m_points.x ∧ 0 ≤ j ∧ j < c.m_points.y ∧
        0 ≤ k ∧ k < c.m_points.z) →
      c.m_data.length =
        c.m_points.x.toNat * c.m_points.y.toNat * c.m_points.z.toNat →
      (c.setValueIJK i j k v).1 = true ∧
      (c.setValueIJK i j k v).2.m_data =
        c.m_data.set (c.encode i j k).toNat v ∧
      (c.setValueIJK i j k v).2.m_maxValue = max c.m_maxValue v ∧
      (c.setValueIJK i j k v).2.m_minValue = min c.m_minValue v) := by
  refine ⟨fun h => setValue_ge c n v h, fun h => ?_, fun h => ?_,
    fun h hlen => ?_⟩
  · rw [setValue_lt c n v h]
    exact ⟨rfl, rfl, rfl, rfl⟩
  · unfold Cube.setValueIJK
    rw [if_neg h]
  · obtain ⟨hi, hi2, hj, hj2, hk, hk2⟩ := h
    have hidx : (c.encode i j k).toNat < c.m_data.length :=
      encode_toNat_lt c i j k hi hi2 hj hj2 hk hk2 hlen
    unfold Cube.setValueIJK
    rw [if_pos ⟨hi, hi2, hj, hj2, hk, hk2⟩, setValue_lt _ _ _ hidx]
    exact ⟨rfl, rfl, rfl, rfl⟩

/-- Witness for C2: on the concrete 2×2×2 grid, index 9 fails and index 3
succeeds with the expected store and extrema; likewise for the (i,j,k)
form out of range and in range. -/
theorem setValue_bounds_spec_witness :
    cube8.setValue 9 5 = (false, cube8) ∧
    (cube8.setValue 3 9).2.m_maxValue = max cube8.m_maxValue 9 ∧
    cube8.setValueIJK 2 0 0 5 = (false, cube8) ∧
    (cube8.setValueIJK 1 1 1 9).1 = true :=
  ⟨(setValue_bounds_spec cube8 9 0 0 0 5).1 (by decide),
   ((setValue_bounds_spec cube8 3 0 0 0 9).2.1 (by decide)).2.2.1,
   ((setValue_bounds_spec cube8 9 2 0 0 5).2.2.1 (by decide)),
   (((setValue_bounds_spec cube8 9 1 1 1 9).2.2.2 (by decide)) (by decide)).1⟩

/-- C10: a successful single-index `setValue` modifies only the addressed
sample and the extrema: geometry fields, every other sample, the label,
the kind and the lock handle are unchanged; a failed `setValue` leaves the
entire grid state unchanged. -/
theorem setValue_frame (c : Cube) (n : ℕ) (v : ℚ) :
    (c.setValue n v).2.m_min = c.m_min ∧
    (c.setValue n v).2.m_max = c.m_max ∧
    (c.setValue n v).2.m_spacing = c.m_spacing ∧
    (c.setValue n v).2.m_points = c.m_points ∧
    (c.setValue n v).2.m_name = c.m_name ∧
    (c.setValue n v).2.m_cubeType = c.m_cubeType ∧
    (c.setValue n v).2.m_lock = c.m_lock ∧
    (∀ m : ℕ, m ≠ n → (c.setValue n v).2.m_data.get? m = c.m_data.get? m) ∧
    (c.m_data.length ≤ n → (c.setValue n v).2 = c) := by
  by_cases h : n < c.m_data.length
  · rw [setValue_lt c n v h]
    refine ⟨rfl, rfl, rfl, rfl, rfl, rfl, rfl, fun m hm => ?_, fun h2 => ?_⟩
    · simp [List.getElem?_set_ne (Ne.symm hm)]
    · omega
  · rw [setValue_ge c n v (by omega)]
    exact ⟨rfl, rfl, rfl, rfl, rfl, rfl, rfl, fun m _ => rfl, fun _ => rfl⟩

/-- Witness for C10: on the concrete filled 2×2×2 grid, a failed write at
index 9 is the identity and a successful write at index 3 leaves sample 0
and the dimensions unchanged. -/
theorem setValue_frame_witness :
    (cube8.setValue 9 5).2 = cube8 ∧
    (cube8.setValue 3 5).2.m_data.get? 0 = cube8.m_data.get? 0 ∧
    (cube8.setValue 3 5).2.m_points = cube8.m_points :=
  ⟨(setValue_frame cube8 9 5).2.2.2.2.2.2.2.2 (by decide),
   (setValue_frame cube8 3 5).2.2.2.2.2.2.2.1 0 (by decide),
   (setValue_frame cube8 3 5).2.2.2.1⟩

theorem setLimitsPoints_success (c : Cube) (mn mx : Vector3)
    (pts : Vector3i) (h : (c.setLimitsPoints mn mx pts).1 = true) :
    (c.setLimitsPoints mn mx pts).2 =
      { c with
        m_min := mn
        m_max := mx
        m_spacing := ⟨axisSpacing mn.x mx.x pts.x,
                      axisSpacing mn.y mx.y pts.y,
                      axisSpacing mn.z mx.z pts.z⟩
        m_points := pts
        m_data := List.replicate
          (pts.x.toNat * pts.y.toNat * pts.z.toNat) 0
        m_minValue := 0
        m_maxValue := 0 } := by
  unfold Cube.setLimitsPoints at h ⊢
  split_ifs at h ⊢
  rfl

theorem setValue_extremaInv (c : Cube) (n : ℕ) (v : ℚ)
    (hc : extremaInv c) : extremaInv (c.setValue n v).2 := by
  by_cases h : n < c.m_data.length
  · rw [setValue_lt c n v h]
    intro w hw
    rcases List.mem_or_eq_of_mem_set hw with hmem | rfl
    · exact ⟨le_trans (min_le_left _ _) (hc w hmem).1,
        le_trans (hc w hmem).2 (le_max_left _ _)⟩
    · exact ⟨min_le_right _ _, le_max_right _ _⟩
  · rw [setValue_ge c n v (by omega)]
    exact hc

theorem setValue_max_mono (c : Cube) (n : ℕ) (v : ℚ) :
    c.m_maxValue ≤ (c.setValue n v).2.m_maxValue := by
  by_cases h : n < c.m_data.length
  · rw [setValue_lt c n v h]
    exact le_max_left _ _
  · rw [setValue_ge c n v (by omega)]

theorem setValue_min_mono (c : Cube) (n : ℕ) (v : ℚ) :
    (c.setValue n v).2.m_minValue ≤ c.m_minValue := by
  by_cases h : n < c.m_data.length
  · rw [setValue_lt c n v h]
    exact min_le_left _ _
  · rw [setValue_ge c n v (by omega)]

theorem applyWrites_extremaInv (ws : List (ℕ × ℚ)) :
    ∀ c : Cube, extremaInv c → extremaInv (applyWrites c ws) := by
  induction ws with
  | nil => exact fun c h => h
  | cons w rest ih =>
    exact fun c h => ih _ (setValue_extremaInv c w.1 w.2 h)

theorem applyWrites_max_mono (ws : List (ℕ × ℚ)) :
    ∀ c : Cube, c.m_maxValue ≤ (applyWrites c ws).m_maxValue := by
  induction ws with
  | nil => exact fun c => le_refl _
  | cons w rest ih =>
    exact fun c => le_trans (setValue_max_mono c w.1 w.2)
      (ih (c.setValue w.1 w.2).2)

theorem applyWrites_min_mono (ws : List (ℕ × ℚ)) :
    ∀ c : Cube, (applyWrites c ws).m_minValue ≤ c.m_minValue := by
  induction ws with
  | nil => exact fun c => le_refl _
  | cons w rest ih =>
    exact fun c => le_trans (ih (c.setValue w.1 w.2).2)
      (setValue_min_mono c w.1 w.2)

theorem applyWrites_append (c : Cube) (ws ws2 : List (ℕ × ℚ)) :
    applyWrites c (ws ++ ws2) = applyWrites (applyWrites c ws) ws2 :=
  List.foldl_append _ _ _ _

/-- C1: starting from a fresh geometry assignment, every sequence of
`setValue` calls keeps `minValue ≤ v ≤ maxValue` for every currently
stored sample `v`, and the extrema are monotone-widening: extending the
write sequence never decreases `maxValue` and never increases `minValue`,
even when a later write overwrites an extreme cell with a less extreme
value. -/
theorem extrema_invariant (c : Cube) (mn mx : Vector3) (pts : Vector3i)
    (hsuc : (c.setLimitsPoints mn mx pts).1 = true)
    (ws ws2 : List (ℕ × ℚ)) :
    extremaInv (applyWrites (c.setLimitsPoints mn mx pts).2 ws) ∧
    (applyWrites (c.setLimitsPoints mn mx pts).2 ws).m_maxValue ≤
      (applyWrites (c.setLimitsPoints mn mx pts).2 (ws ++ ws2)).m_maxValue ∧
    (applyWrites (c.setLimitsPoints mn mx pts).2 (ws ++ ws2)).m_minValue ≤
      (applyWrites (c.setLimitsPoints mn mx pts).2 ws).m_minValue := by
  have hfresh : extremaInv (c.setLimitsPoints mn mx pts).2 := by
    rw [setLimitsPoints_success c mn mx pts hsuc]
    intro v hv
    rw [List.eq_of_mem_replicate hv]
    exact ⟨le_refl 0, le_refl 0⟩
  refine ⟨applyWrites_extremaInv ws _ hfresh, ?_, ?_⟩
  · rw [applyWrites_append]
    exact applyWrites_max_mono ws2 _
  · rw [applyWrites_append]
    exact applyWrites_min_mono ws2 _

/-- Witness for C1: on the freshly assigned 2×2×2 grid, writing 5 at cell 0
and then overwriting it with 1 keeps the invariant and never shrinks the
extrema. -/
theorem extrema_invariant_witness :
    extremaInv (applyWrites cube2 [(0, 5)]) ∧
    (applyWrites cube2 [(0, 5)]).m_maxValue ≤
      (applyWrites cube2 ([(0, 5)] ++ [(0, 1)])).m_maxValue ∧
    (applyWrites cube2 ([(0, 5)] ++ [(0, 1)])).m_minValue ≤
      (applyWrites cube2 [(0, 5)]).m_minValue :=
  extrema_invariant cube0 ⟨0, 0, 0⟩ ⟨1, 1, 1⟩ ⟨2, 2, 2⟩ (by decide)
    [(0, 5)] [(0, 1)]

/-- C5: the points-based `setLimits` fails without mutation when any
dimension component is negative or the extent undercuts the origin on any
axis; on success it installs the guarded per-axis spacing
(`(extent − origin) / (dim − 1)`, defined as 0 on an axis with dimension
≤ 1, never dividing by zero), allocates `nx·ny·nz` samples and resets the
extrema. -/
theorem setLimits_spec (c : Cube) (mn mx : Vector3) (pts : Vector3i) :
    ((pts.x < 0 ∨ pts.y < 0 ∨ pts.z < 0 ∨
      mx.x < mn.x ∨ mx.y < mn.y ∨ mx.z < mn.z) →
      c.setLimitsPoints mn mx pts = (false, c)) ∧
    (¬ (pts.x < 0 ∨ pts.y < 0 ∨ pts.z < 0 ∨
        mx.x < mn.x ∨ mx.y < mn.y ∨ mx.z < mn.z) →
      (c.setLimitsPoints mn mx pts).1 = true ∧
      (c.setLimitsPoints mn mx pts).2.m_spacing.x =
        (if pts.x ≤ 1 then 0 else (mx.x - mn.x) / ((pts.x : ℚ) - 1)) ∧
      (c.setLimitsPoints mn mx pts).2.m_spacing.y =
        (if pts.y ≤ 1 then 0 else (mx.y - mn.y) / ((pts.y : ℚ) - 1)) ∧
      (c.setLimitsPoints mn mx pts).2.m_spacing.z =
        (if pts.z ≤ 1 then 0 else (mx.z - mn.z) / ((pts.z : ℚ) - 1)) ∧
      (c.setLimitsPoints mn mx pts).2.m_points = pts ∧
      (c.setLimitsPoints mn mx pts).2.m_data.length =
        pts.x.toNat * pts.y.toNat * pts.z.toNat ∧
      (c.setLimitsPoints mn mx pts).2.m_minValue = 0 ∧
      (c.setLimitsPoints mn mx pts).2.m_maxValue = 0) := by
  constructor
  · intro h
    unfold Cube.setLimitsPoints
    rw [if_pos h]
  · intro h
    unfold Cube.setLimitsPoints
    rw [if_neg h]
    refine ⟨rfl, rfl, rfl, rfl, rfl, ?_, rfl, rfl⟩
    exact List.length_replicate _ _

/-- Witness for C5: the test inputs named by the spec — `dimensions = (-1,2,2)`
fails on the fresh grid and leaves it unchanged, while the unit box with
`dimensions = (2,2,2)` succeeds with 8 samples and unit spacing. -/
theorem setLimits_spec_witness :
    cube0.setLimitsPoints ⟨0, 0, 0⟩ ⟨1, 1, 1⟩ ⟨-1, 2, 2⟩ = (false, cube0) ∧
    (cube0.setLimitsPoints ⟨0, 0, 0⟩ ⟨1, 1, 1⟩ ⟨2, 2, 2⟩).1 = true ∧
    (cube0.setLimitsPoints ⟨0, 0, 0⟩ ⟨1, 1, 1⟩ ⟨2, 2, 2⟩).2.m_data.length =
      8 :=
  ⟨(setLimits_spec cube0 ⟨0, 0, 0⟩ ⟨1, 1, 1⟩ ⟨-1, 2, 2⟩).1 (by decide),
   ((setLimits_spec cube0 ⟨0, 0, 0⟩ ⟨1, 1, 1⟩ ⟨2, 2, 2⟩).2 (by decide)).1,
   ((setLimits_spec cube0 ⟨0, 0, 0⟩ ⟨1, 1, 1⟩ ⟨2, 2, 2⟩).2
      (by decide)).2.2.2.2.2.1⟩

theorem setLimitsPoints_fresh (c : Cube) (mn mx : Vector3) (pts : Vector3i)
    (h : (c.setLimitsPoints mn mx pts).1 = true) :
    freshStoreOK (c.setLimitsPoints mn mx pts).2 := by
  rw [setLimitsPoints_success c mn mx pts h]
  refine ⟨List.length_replicate _ _, fun v hv => List.eq_of_mem_replicate hv,
    rfl, rfl⟩

theorem setLimitsSpacing_fresh (c : Cube) (mn mx : Vector3) (s : ℚ)
    (h : (c.setLimitsSpacing mn mx s).1 = true) :
    freshStoreOK (c.setLimitsSpacing mn mx s).2 := by
  unfold Cube.setLimitsSpacing at h ⊢
  split_ifs at h ⊢
  exact setLimitsPoints_fresh _ _ _ _ h

theorem setLimitsDim_fresh (c : Cube) (mn : Vector3) (dim : Vector3i)
    (s : ℚ) (h : (c.setLimitsDim mn dim s).1 = true) :
    freshStoreOK (c.setLimitsDim mn dim s).2 := by
  unfold Cube.setLimitsDim at h ⊢
  split_ifs at h ⊢
  exact setLimitsPoints_fresh _ _ _ _ h

theorem setLimitsCopy_fresh (c other : Cube) :
    freshStoreOK (c.setLimitsCopy other).2 :=
  ⟨List.length_replicate _ _, fun _v hv => List.eq_of_mem_replicate hv,
    rfl, rfl⟩

theorem setLimitsMol_fresh (c : Cube) (atoms : List Vector3) (s p : ℚ)
    (h : (c.setLimitsMol atoms s p).1 = true) :
    freshStoreOK (c.setLimitsMol atoms s p).2 := by
  cases atoms with
  | nil => exact absurd h (by simp [Cube.setLimitsMol])
  | cons a rest => exact setLimitsSpacing_fresh _ _ _ _ h

/-- C6: every successful geometry-defining operation (each `setLimits`
variant) leaves `samples.length = nx·ny·nz` with a zero-filled store and
reset extrema, and every data operation (`setValue`, `setValueIJK`,
`setData`, `addData`) preserves both the sample count and the dimensions,
so the length invariant persists until the next geometry assignment. -/
theorem fresh_allocation_invariant :
    (∀ (c : Cube) (mn mx : Vector3) (pts : Vector3i),
      (c.setLimitsPoints mn mx pts).1 = true →
      freshStoreOK (c.setLimitsPoints mn mx pts).2) ∧
    (∀ (c : Cube) (mn mx : Vector3) (s : ℚ),
      (c.setLimitsSpacing mn mx s).1 = true →
      freshStoreOK (c.setLimitsSpacing mn mx s).2) ∧
    (∀ (c : Cube) (mn : Vector3) (dim : Vector3i) (s : ℚ),
      (c.setLimitsDim mn dim s).1 = true →
      freshStoreOK (c.setLimitsDim mn dim s).2) ∧
    (∀ c other : Cube, freshStoreOK (c.setLimitsCopy other).2) ∧
    (∀ (c : Cube) (atoms : List Vector3) (s p : ℚ),
      (c.setLimitsMol atoms s p).1 = true →
      freshStoreOK (c.setLimitsMol atoms s p).2) ∧
    (∀ (c : Cube) (n : ℕ) (v : ℚ),
      (c.setValue n v).2.m_data.length = c.m_data.length ∧
      (c.setValue n v).2.m_points = c.m_points) ∧
    (∀ (c : Cube) (i j k : ℤ) (v : ℚ),
      (c.setValueIJK i j k v).2.m_data.length = c.m_data.length ∧
      (c.setValueIJK i j k v).2.m_points = c.m_points) ∧
    (∀ (c : Cube) (values : List ℚ),
      (c.setData values).2.m_data.length = c.m_data.length ∧
      (c.setData values).2.m_points = c.m_points ∧
      (c.addData values).2.m_data.length = c.m_data.length ∧
      (c.addData values).2.m_points = c.m_points) := by
  have hsv : ∀ (c : Cube) (n : ℕ) (v : ℚ),
      (c.setValue n v).2.m_data.length = c.m_data.length ∧
      (c.setValue n v).2.m_points = c.m_points := by
    intro c n v
    by_cases h : n < c.m_data.length
    · rw [setValue_lt c n v h]
      exact ⟨List.length_set _ _ _, rfl⟩
    · rw [setValue_ge c n v (by omega)]
      exact ⟨rfl, rfl⟩
  refine ⟨setLimitsPoints_fresh, setLimitsSpacing_fresh, setLimitsDim_fresh,
    setLimitsCopy_fresh, setLimitsMol_fresh, hsv, ?_, ?_⟩
  · intro c i j k v
    unfold Cube.setValueIJK
    split_ifs
    · exact hsv c _ v
    · exact ⟨rfl, rfl⟩
  · intro c values
    unfold Cube.setData Cube.addData
    split_ifs with h
    · refine ⟨h, rfl, ?_, rfl⟩
      rw [List.length_zipWith, h]
      exact Nat.min_self _
    · exact ⟨rfl, rfl, rfl, rfl⟩

/-- Witness for C6: the spacing-based and copy variants on concrete inputs
produce the fresh zero-filled store of the right size. -/
theorem fresh_allocation_invariant_witness :
    freshStoreOK (cube0.setLimitsSpacing ⟨0, 0, 0⟩ ⟨1, 1, 1⟩ 1).2 ∧
    freshStoreOK (cube0.setLimitsCopy cube8).2 ∧
    (cube8.setData [1, 1, 1, 1, 1, 1, 1, 1]).2.m_data.length =
      cube8.m_data.length :=
  ⟨fresh_allocation_invariant.2.1 cube0 ⟨0, 0, 0⟩ ⟨1, 1, 1⟩ 1
     (by simp only [Cube.setLimitsSpacing, Cube.setLimitsPoints, ratRound_eq,
           cube0]
         norm_num),
   fresh_allocation_invariant.2.2.2.1 cube0 cube8,
   (fresh_allocation_invariant.2.2.2.2.2.2.2 cube8
      [1, 1, 1, 1, 1, 1, 1, 1]).1⟩

theorem foldl_min_le_init (l : List ℚ) : ∀ a : ℚ, l.foldl min a ≤ a := by
  induction l with
  | nil => exact fun a => le_refl a
  | cons x xs ih => exact fun a => le_trans (ih (min a x)) (min_le_left a x)

theorem foldl_min_le_mem (l : List ℚ) :
    ∀ a v : ℚ, v ∈ l → l.foldl min a ≤ v := by
  induction l with
  | nil => intro a v hv; cases hv
  | cons x xs ih =>
    intro a v hv
    rcases List.mem_cons.mp hv with rfl | hv2
    · exact le_trans (foldl_min_le_init xs (min a v)) (min_le_right a v)
    · exact ih (min a x) v hv2

theorem foldl_min_mem (l : List ℚ) :
    ∀ a : ℚ, l.foldl min a = a ∨ l.foldl min a ∈ l := by
  induction l with
  | nil => exact fun a => Or.inl rfl
  | cons x xs ih =>
    intro a
    rcases ih (min a x) with h | h
    · rcases min_choice a x with ha | hx
      · exact Or.inl (by rw [List.foldl_cons, h, ha])
      · exact Or.inr
          (by rw [List.foldl_cons, h, hx]; exact List.mem_cons_self x xs)
    · exact Or.inr (List.mem_cons_of_mem x h)

theorem foldl_max_init_le (l : List ℚ) : ∀ a : ℚ, a ≤ l.foldl max a := by
  induction l with
  | nil => exact fun a => le_refl a
  | cons x xs ih => exact fun a => le_trans (le_max_left a x) (ih (max a x))

theorem foldl_max_mem_le (l : List ℚ) :
    ∀ a v : ℚ, v ∈ l → v ≤ l.foldl max a := by
  induction l with
  | nil => intro a v hv; cases hv
  | cons x xs ih =>
    intro a v hv
    rcases List.mem_cons.mp hv with rfl | hv2
    · exact le_trans (le_max_right a v) (foldl_max_init_le xs (max a v))
    · exact ih (max a x) v hv2

theorem foldl_max_mem (l : List ℚ) :
    ∀ a : ℚ, l.foldl max a = a ∨ l.foldl max a ∈ l := by
  induction l with
  | nil => exact fun a => Or.inl rfl
  | cons x xs ih =>
    intro a
    rcases ih (max a x) with h | h
    · rcases max_choice a x with ha | hx
      · exact Or.inl (by rw [List.foldl_cons, h, ha])
      · exact Or.inr
          (by rw [List.foldl_cons, h, hx]; exact List.mem_cons_self x xs)
    · exact Or.inr (List.mem_cons_of_mem x h)

theorem scanMin_le (l : List ℚ) (v : ℚ) (hv : v ∈ l) : scanMin l ≤ v := by
  cases l with
  | nil => cases hv
  | cons x xs =>
    rcases List.mem_cons.mp hv with rfl | h
    · exact foldl_min_le_init xs v
    · exact foldl_min_le_mem xs x v h

theorem scanMin_mem (l : List ℚ) (h : l ≠ []) : scanMin l ∈ l := by
  cases l with
  | nil => exact absurd rfl h
  | cons x xs =>
    rcases foldl_min_mem xs x with h2 | h2
    · simp only [scanMin]
      rw [h2]
      exact List.mem_cons_self x xs
    · exact List.mem_cons_of_mem x h2

theorem scanMax_le (l : List ℚ) (v : ℚ) (hv : v ∈ l) : v ≤ scanMax l := by
  cases l with
  | nil => cases hv
  | cons x xs =>
    rcases List.mem_cons.mp hv with rfl | h
    · exact foldl_max_init_le xs v
    · exact foldl_max_mem_le xs x v h

theorem scanMax_mem (l : List ℚ) (h : l ≠ []) : scanMax l ∈ l := by
  cases l with
  | nil => exact absurd rfl h
  | cons x xs =>
    rcases foldl_max_mem xs x with h2 | h2
    · simp only [scanMax]
      rw [h2]
      exact List.mem_cons_self x xs
    · exact List.mem_cons_of_mem x h2

/-- C7: `setData` and `addData` fail and leave samples and extrema
unchanged on a length mismatch; on success `setData` replaces the samples
wholesale and `addData` accumulates elementwise, and in both cases the
extrema are recomputed by a full scan of the resulting samples: `minValue`
and `maxValue` bound every resulting sample and (for a nonempty store) are
themselves attained in it. -/
theorem bulk_data_spec (c : Cube) (values : List ℚ) :
    (values.length ≠ c.m_data.length →
      c.setData values = (false, c) ∧ c.addData values = (false, c)) ∧
    (values.length = c.m_data.length →
      (c.setData values).1 = true ∧
      (c.setData values).2.m_data = values ∧
      (∀ v ∈ values,
        (c.setData values).2.m_minValue ≤ v ∧
        v ≤ (c.setData values).2.m_maxValue) ∧
      (values ≠ [] →
        (c.setData values).2.m_minValue ∈ values ∧
        (c.setData values).2.m_maxValue ∈ values) ∧
      (c.addData values).1 = true ∧
      (c.addData values).2.m_data = List.zipWith (· + ·) c.m_data values ∧
      (∀ v ∈ List.zipWith (· + ·) c.m_data values,
        (c.addData values).2.m_minValue ≤ v ∧
        v ≤ (c.addData values).2.m_maxValue) ∧
      (List.zipWith (· + ·) c.m_data values ≠ [] →
        (c.addData values).2.m_minValue ∈
          List.zipWith (· + ·) c.m_data values ∧
        (c.addData values).2.m_maxValue ∈
          List.zipWith (· + ·) c.m_data values)) := by
  constructor
  · intro h
    unfold Cube.setData Cube.addData
    rw [if_neg h, if_neg h]
    exact ⟨rfl, rfl⟩
  · intro h
    unfold Cube.setData Cube.addData
    rw [if_pos h]
    refine ⟨rfl, rfl, ?_, ?_, ?_, ?_, ?_, ?_⟩
    · exact fun v hv => ⟨scanMin_le values v hv, scanMax_le values v hv⟩
    · exact fun hne => ⟨scanMin_mem values hne, scanMax_mem values hne⟩
    · rw [if_pos h]
    · rw [if_pos h]
    · rw [if_pos h]
      exact fun v hv =>
        ⟨scanMin_le _ v hv, scanMax_le _ v hv⟩
    · rw [if_pos h]
      exact fun hne => ⟨scanMin_mem _ hne, scanMax_mem _ hne⟩

/-- Witness for C7: on the 2×2×2 grid, a 7-element `setData` fails and a
`[5,5,5,5,5,5,5,5]` `addData` succeeds with elementwise sums bounding the
recomputed extrema. -/
theorem bulk_data_spec_witness :
    cube8.setData [1, 2, 3, 4, 5, 6, 7] = (false, cube8) ∧
    (cube8.addData [5, 5, 5, 5, 5, 5, 5, 5]).1 = true ∧
    (cube8.addData [5, 5, 5, 5, 5, 5, 5, 5]).2.m_data =
      List.zipWith (· + ·) cube8.m_data [5, 5, 5, 5, 5, 5, 5, 5] :=
  ⟨((bulk_data_spec cube8 [1, 2, 3, 4, 5, 6, 7]).1 (by decide)).1,
   ((bulk_data_spec cube8 [5, 5, 5, 5, 5, 5, 5, 5]).2 (by decide)).2.2.2.2.1,
   ((bulk_data_spec cube8 [5, 5, 5, 5, 5, 5, 5, 5]).2
      (by decide)).2.2.2.2.2.1⟩

theorem nat_decode (I J K NY NZ : ℕ) (hJ : J < NY) (hK : K < NZ) :
    (I * (NY * NZ) + J * NZ + K) / (NY * NZ) = I ∧
    (I * (NY * NZ) + J * NZ + K) % (NY * NZ) / NZ = J ∧
    (I * (NY * NZ) + J * NZ + K) % (NY * NZ) % NZ = K := by
  have hNZ : 0 < NZ := by omega
  have hNY : 0 < NY := by omega
  have hlt : J * NZ + K < NY * NZ := by
    calc J * NZ + K < J * NZ + NZ := by omega
      _ = (J + 1) * NZ := by ring
      _ ≤ NY * NZ := Nat.mul_le_mul_right NZ (by omega)
  have hrw : I * (NY * NZ) + J * NZ + K = (NY * NZ) * I + (J * NZ + K) := by
    ring
  have hmod : (I * (NY * NZ) + J * NZ + K) % (NY * NZ) = J * NZ + K := by
    rw [hrw, Nat.mul_add_mod, Nat.mod_eq_of_lt hlt]
  refine ⟨?_, ?_, ?_⟩
  · rw [hrw, Nat.mul_add_div (Nat.mul_pos hNY hNZ), Nat.div_eq_of_lt hlt]
    omega
  · rw [hmod, show J * NZ + K = NZ * J + K by ring, Nat.mul_add_div hNZ,
      Nat.div_eq_of_lt hK]
    omega
  · rw [hmod, show J * NZ + K = NZ * J + K by ring, Nat.mul_add_mod,
      Nat.mod_eq_of_lt hK]

theorem decode_encode (c : Cube) (i j k : ℤ) (hi : 0 ≤ i) (hj : 0 ≤ j)
    (hj2 : j < c.m_points.y) (hk : 0 ≤ k) (hk2 : k < c.m_points.z) :
    c.decode (c.encode i j k).toNat = (i.toNat, j.toNat, k.toNat) := by
  rw [encode_toNat c i j k hi hj hj2 hk hk2]
  obtain ⟨h1, h2, h3⟩ := nat_decode i.toNat j.toNat k.toNat
    c.m_points.y.toNat c.m_points.z.toNat (by omega) (by omega)
  simp only [Cube.decode]
  rw [h1, h2, h3]

theorem coord_exact (sp mn : ℚ) (a n : ℤ) (ha : 0 ≤ a) (han : a < n)
    (hsp : 0 < sp ∨ n = 1) :
    (mn + sp * ((a.toNat : ℕ) : ℚ) - mn) / sp = (a : ℚ) := by
  have hcast : ((a.toNat : ℕ) : ℚ) = ((a : ℤ) : ℚ) := by
    rw [← Int.cast_natCast, Int.toNat_of_nonneg ha]
  rw [hcast]
  rcases hsp with hsp | hn1
  · field_simp
  · have ha0 : a = 0 := by omega
    subst ha0
    push_cast
    ring

theorem clampIdx_of_mem (a n : ℤ) (ha : 0 ≤ a) (han : a < n) :
    clampIdx a n = a := by
  unfold clampIdx
  rw [max_eq_left ha, min_eq_left (by omega)]

/-- C4: for all valid lattice coordinates, the index→position→index round
trip is the identity: `indexVector (position (encode i j k)) = (i, j, k)`,
with the linear encoding `i·(ny·nz) + j·nz + k` (k fastest, i slowest) and
`position` decoding the linear index to `origin + spacing ⊙ (i, j, k)`.
Each axis is either non-degenerate (positive spacing) or a single-point
axis. -/
theorem index_position_roundtrip (c : Cube) (i j k : ℤ)
    (hx : 0 < c.m_spacing.x ∨ c.m_points.x = 1)
    (hy : 0 < c.m_spacing.y ∨ c.m_points.y = 1)
    (hz : 0 < c.m_spacing.z ∨ c.m_points.z = 1)
    (hi : 0 ≤ i) (hi2 : i < c.m_points.x)
    (hj : 0 ≤ j) (hj2 : j < c.m_points.y)
    (hk : 0 ≤ k) (hk2 : k < c.m_points.z) :
    c.indexVector (c.position (c.encode i j k).toNat) = ⟨i, j, k⟩ := by
  have hdec := decode_encode c i j k hi hj hj2 hk hk2
  have h1 : (c.decode (c.encode i j k).toNat).1 = i.toNat := by rw [hdec]
  have h2 : (c.decode (c.encode i j k).toNat).2.1 = j.toNat := by rw [hdec]
  have h3 : (c.decode (c.encode i j k).toNat).2.2 = k.toNat := by rw [hdec]
  unfold Cube.indexVector Cube.position
  rw [h1, h2, h3]
  rw [coord_exact c.m_spacing.x c.m_min.x i c.m_points.x hi hi2 hx,
    coord_exact c.m_spacing.y c.m_min.y j c.m_points.y hj hj2 hy,
    coord_exact c.m_spacing.z c.m_min.z k c.m_points.z hk hk2 hz,
    ratRound_eq, ratRound_eq, ratRound_eq, round_intCast, round_intCast,
    round_intCast, clampIdx_of_mem i c.m_points.x hi hi2,
    clampIdx_of_mem j c.m_points.y hj hj2,
    clampIdx_of_mem k c.m_points.z hk hk2]

/-- Witness for C4: on the 2×2×2 unit grid, lattice point (1,0,1) encodes
to linear index 5 and the round trip through `position` returns (1,0,1). -/
theorem index_position_roundtrip_witness :
    cube2.indexVector (cube2.position (cube2.encode 1 0 1).toNat) =
      ⟨1, 0, 1⟩ :=
  index_position_roundtrip cube2 1 0 1
    (Or.inl (by norm_num [cube2, cube0, Cube.setLimitsPoints, axisSpacing]))
    (Or.inl (by norm_num [cube2, cube0, Cube.setLimitsPoints, axisSpacing]))
    (Or.inl (by norm_num [cube2, cube0, Cube.setLimitsPoints, axisSpacing]))
    (by decide) (by decide) (by decide) (by decide) (by decide) (by decide)

theorem valueOpt_in_range (c : Cube) (i j k : ℤ) (hi : 0 ≤ i)
    (hi2 : i < c.m_points.x) (hj : 0 ≤ j) (hj2 : j < c.m_points.y)
    (hk : 0 ≤ k) (hk2 : k < c.m_points.z) :
    c.valueOpt i j k = c.m_data.get? (c.encode i j k).toNat := by
  unfold Cube.valueOpt
  rw [if_pos ⟨hi, hi2, hj, hj2, hk, hk2⟩]

theorem valueOpt_isSome (c : Cube) (i j k : ℤ) (hi : 0 ≤ i)
    (hi2 : i < c.m_points.x) (hj : 0 ≤ j) (hj2 : j < c.m_points.y)
    (hk : 0 ≤ k) (hk2 : k < c.m_points.z)
    (hlen : c.m_data.length =
      c.m_points.x.toNat * c.m_points.y.toNat * c.m_points.z.toNat) :
    ∃ v, c.valueOpt i j k = some v := by
  rw [valueOpt_in_range c i j k hi hi2 hj hj2 hk hk2]
  exact ⟨_,
    List.get?_eq_get (encode_toNat_lt c i j k hi hi2 hj hj2 hk hk2 hlen)⟩

theorem clampIdx_mem (a n : ℤ) (hn : 1 ≤ n) :
    0 ≤ clampIdx a n ∧ clampIdx a n < n := by
  unfold clampIdx
  constructor
  · exact le_min (le_max_right a 0) (by omega)
  · exact lt_of_le_of_lt (min_le_right _ _) (by omega)

theorem lerp_zero (a b : ℚ) : lerp a b 0 = a := by
  unfold lerp
  ring

theorem ratFloor_intCast (a : ℤ) : ratFloor ((a : ℤ) : ℚ) = a := by
  rw [ratFloor_eq, Int.floor_intCast]

theorem trilinear_lattice (c : Cube) (i j k : ℤ)
    (hlen : c.m_data.length =
      c.m_points.x.toNat * c.m_points.y.toNat * c.m_points.z.toNat)
    (hi : 0 ≤ i) (hi2 : i < c.m_points.x)
    (hj : 0 ≤ j) (hj2 : j < c.m_points.y)
    (hk : 0 ≤ k) (hk2 : k < c.m_points.z) :
    c.trilinear (i : ℚ) (j : ℚ) (k : ℚ) = c.valueOpt i j k := by
  have hci : clampIdx i c.m_points.x = i := clampIdx_of_mem i _ hi hi2
  have hcj : clampIdx j c.m_points.y = j := clampIdx_of_mem j _ hj hj2
  have hck : clampIdx k c.m_points.z = k := clampIdx_of_mem k _ hk hk2
  obtain ⟨hi1a, hi1b⟩ := clampIdx_mem (i + 1) c.m_points.x (by omega)
  obtain ⟨hj1a, hj1b⟩ := clampIdx_mem (j + 1) c.m_points.y (by omega)
  obtain ⟨hk1a, hk1b⟩ := clampIdx_mem (k + 1) c.m_points.z (by omega)
  obtain ⟨v000, h000⟩ := valueOpt_isSome c i j k hi hi2 hj hj2 hk hk2 hlen
  obtain ⟨v100, h100⟩ := valueOpt_isSome c (clampIdx (i + 1) c.m_points.x)
    j k hi1a hi1b hj hj2 hk hk2 hlen
  obtain ⟨v010, h010⟩ := valueOpt_isSome c i
    (clampIdx (j + 1) c.m_points.y) k hi hi2 hj1a hj1b hk hk2 hlen
  obtain ⟨v110, h110⟩ := valueOpt_isSome c (clampIdx (i + 1) c.m_points.x)
    (clampIdx (j + 1) c.m_points.y) k hi1a hi1b hj1a hj1b hk hk2 hlen
  obtain ⟨v001, h001⟩ := valueOpt_isSome c i j
    (clampIdx (k + 1) c.m_points.z) hi hi2 hj hj2 hk1a hk1b hlen
  obtain ⟨v101, h101⟩ := valueOpt_isSome c (clampIdx (i + 1) c.m_points.x)
    j (clampIdx (k + 1) c.m_points.z) hi1a hi1b hj hj2 hk1a hk1b hlen
  obtain ⟨v011, h011⟩ := valueOpt_isSome c i
    (clampIdx (j + 1) c.m_points.y) (clampIdx (k + 1) c.m_points.z)
    hi hi2 hj1a hj1b hk1a hk1b hlen
  obtain ⟨v111, h111⟩ := valueOpt_isSome c (clampIdx (i + 1) c.m_points.x)
    (clampIdx (j + 1) c.m_points.y) (clampIdx (k + 1) c.m_points.z)
    hi1a hi1b hj1a hj1b hk1a hk1b hlen
  simp only [Cube.trilinear, ratFloor_intCast, hci, hcj, hck, h000, h100,
    h010, h110, h001, h101, h011, h111, Option.some_bind, sub_self,
    lerp_zero]

/-- C3: at every valid lattice point (i,j,k) of a grid whose axes are
non-degenerate (positive spacing) or single-point, the trilinear
interpolation evaluated at `position(encode(i,j,k))` returns exactly the
stored sample `value(i,j,k)` — interpolation reduces to exact lookup at
lattice nodes. -/
theorem lattice_interpolation_exact (c : Cube) (i j k : ℤ)
    (hx : 0 < c.m_spacing.x ∨ c.m_points.x = 1)
    (hy : 0 < c.m_spacing.y ∨ c.m_points.y = 1)
    (hz : 0 < c.m_spacing.z ∨ c.m_points.z = 1)
    (hlen : c.m_data.length =
      c.m_points.x.toNat * c.m_points.y.toNat * c.m_points.z.toNat)
    (hi : 0 ≤ i) (hi2 : i < c.m_points.x)
    (hj : 0 ≤ j) (hj2 : j < c.m_points.y)
    (hk : 0 ≤ k) (hk2 : k < c.m_points.z) :
    c.value (c.position (c.encode i j k).toNat) = c.valueOpt i j k ∧
    (c.valueOpt i j k).isSome = true := by
  have hdec := decode_encode c i j k hi hj hj2 hk hk2
  have h1 : (c.decode (c.encode i j k).toNat).1 = i.toNat := by rw [hdec]
  have h2 : (c.decode (c.encode i j k).toNat).2.1 = j.toNat := by rw [hdec]
  have h3 : (c.decode (c.encode i j k).toNat).2.2 = k.toNat := by rw [hdec]
  constructor
  · unfold Cube.value Cube.position
    rw [h1, h2, h3,
      coord_exact c.m_spacing.x c.m_min.x i c.m_points.x hi hi2 hx,
      coord_exact c.m_spacing.y c.m_min.y j c.m_points.y hj hj2 hy,
      coord_exact c.m_spacing.z c.m_min.z k c.m_points.z hk hk2 hz]
    exact trilinear_lattice c i j k hlen hi hi2 hj hj2 hk hk2
  · obtain ⟨v, hv⟩ := valueOpt_isSome c i j k hi hi2 hj hj2 hk hk2 hlen
    rw [hv]
    rfl

/-- Witness for C3: on the filled 2×2×2 grid, interpolating at the
position of lattice point (1,0,1) returns exactly the stored sample. -/
theorem lattice_interpolation_exact_witness :
    cube8.value (cube8.position (cube8.encode 1 0 1).toNat) =
      cube8.valueOpt 1 0 1 ∧
    (cube8.valueOpt 1 0 1).isSome = true :=
  lattice_interpolation_exact cube8 1 0 1
    (Or.inl (by norm_num [cube8, cube2, cube0, Cube.setData,
       Cube.setLimitsPoints, axisSpacing, show Int.toNat 2 = 2 from rfl]))
    (Or.inl (by norm_num [cube8, cube2, cube0, Cube.setData,
       Cube.setLimitsPoints, axisSpacing, show Int.toNat 2 = 2 from rfl]))
    (Or.inl (by norm_num [cube8, cube2, cube0, Cube.setData,
       Cube.setLimitsPoints, axisSpacing, show Int.toNat 2 = 2 from rfl]))
    (by decide) (by decide) (by decide) (by decide) (by decide) (by decide)
    (by decide)

theorem trilinear_total (c : Cube) (cx cy cz : ℚ)
    (h1 : 1 ≤ c.m_points.x) (h2 : 1 ≤ c.m_points.y) (h3 : 1 ≤ c.m_points.z)
    (hlen : c.m_data.length =
      c.m_points.x.toNat * c.m_points.y.toNat * c.m_points.z.toNat) :
    ∃ v, c.trilinear cx cy cz = some v := by
  obtain ⟨hi0a, hi0b⟩ := clampIdx_mem (ratFloor cx) c.m_points.x h1
  obtain ⟨hi1a, hi1b⟩ := clampIdx_mem (ratFloor cx + 1) c.m_points.x h1
  obtain ⟨hj0a, hj0b⟩ := clampIdx_mem (ratFloor cy) c.m_points.y h2
  obtain ⟨hj1a, hj1b⟩ := clampIdx_mem (ratFloor cy + 1) c.m_points.y h2
  obtain ⟨hk0a, hk0b⟩ := clampIdx_mem (ratFloor cz) c.m_points.z h3
  obtain ⟨hk1a, hk1b⟩ := clampIdx_mem (ratFloor cz + 1) c.m_points.z h3
  obtain ⟨v000, h000⟩ := valueOpt_isSome c _ _ _ hi0a hi0b hj0a hj0b
    hk0a hk0b hlen
  obtain ⟨v100, h100⟩ := valueOpt_isSome c _ _ _ hi1a hi1b hj0a hj0b
    hk0a hk0b hlen
  obtain ⟨v010, h010⟩ := valueOpt_isSome c _ _ _ hi0a hi0b hj1a hj1b
    hk0a hk0b hlen
  obtain ⟨v110, h110⟩ := valueOpt_isSome c _ _ _ hi1a hi1b hj1a hj1b
    hk0a hk0b hlen
  obtain ⟨v001, h001⟩ := valueOpt_isSome c _ _ _ hi0a hi0b hj0a hj0b
    hk1a hk1b hlen
  obtain ⟨v101, h101⟩ := valueOpt_isSome c _ _ _ hi1a hi1b hj0a hj0b
    hk1a hk1b hlen
  obtain ⟨v011, h011⟩ := valueOpt_isSome c _ _ _ hi0a hi0b hj1a hj1b
    hk1a hk1b hlen
  obtain ⟨v111, h111⟩ := valueOpt_isSome c _ _ _ hi1a hi1b hj1a hj1b
    hk1a hk1b hlen
  have hs : (c.trilinear cx cy cz).isSome = true := by
    simp only [Cube.trilinear, h000, h100, h010, h110, h001, h101, h011,
      h111, Option.some_bind, Option.isSome_some]
  exact Option.isSome_iff_exists.mp hs

/-- C9: on a grid with at least one point per axis and a matching sample
store, every corner index the interpolation gathers is clamped into the
valid range `[0, dim)`, and the interpolation entry point succeeds (never
reads a sample out of range and never fails) for every continuous
position, including positions entirely outside the box — out-of-range
queries degrade to nearest-edge extrapolation. -/
theorem interpolation_total (c : Cube) (p : Vector3)
    (h1 : 1 ≤ c.m_points.x) (h2 : 1 ≤ c.m_points.y) (h3 : 1 ≤ c.m_points.z)
    (hlen : c.m_data.length =
      c.m_points.x.toNat * c.m_points.y.toNat * c.m_points.z.toNat) :
    (∀ a : ℤ,
      (0 ≤ clampIdx a c.m_points.x ∧ clampIdx a c.m_points.x < c.m_points.x) ∧
      (0 ≤ clampIdx a c.m_points.y ∧ clampIdx a c.m_points.y < c.m_points.y) ∧
      (0 ≤ clampIdx a c.m_points.z ∧ clampIdx a c.m_points.z < c.m_points.z)) ∧
    ∃ v, c.value p = some v := by
  refine ⟨fun a => ⟨clampIdx_mem a _ h1, clampIdx_mem a _ h2,
    clampIdx_mem a _ h3⟩, ?_⟩
  exact trilinear_total c _ _ _ h1 h2 h3 hlen

/-- Witness for C9: on the filled 2×2×2 unit grid, the interpolation
succeeds at a position far outside the box. -/
theorem interpolation_total_witness :
    ∃ v, cube8.value ⟨100, -50, 7⟩ = some v :=
  (interpolation_total cube8 ⟨100, -50, 7⟩ (by decide) (by decide)
    (by decide) (by decide)).2

theorem le_lerp (lo a b t : ℚ) (h0 : 0 ≤ t) (h1 : t ≤ 1)
    (ha : lo ≤ a) (hb : lo ≤ b) : lo ≤ lerp a b t := by
  have e1 : 0 ≤ (1 - t) * (a - lo) :=
    mul_nonneg (by linarith) (by linarith)
  have e2 : 0 ≤ t * (b - lo) := mul_nonneg h0 (by linarith)
  have e3 : lerp a b t - lo = (1 - t) * (a - lo) + t * (b - lo) := by
    unfold lerp
    ring
  linarith

theorem lerp_le (up a b t : ℚ) (h0 : 0 ≤ t) (h1 : t ≤ 1)
    (ha : a ≤ up) (hb : b ≤ up) : lerp a b t ≤ up := by
  have e1 : 0 ≤ (1 - t) * (up - a) :=
    mul_nonneg (by linarith) (by linarith)
  have e2 : 0 ≤ t * (up - b) := mul_nonneg h0 (by linarith)
  have e3 : up - lerp a b t = (1 - t) * (up - a) + t * (up - b) := by
    unfold lerp
    ring
  linarith

/-- C8: for a position whose enclosing cell is interior (the floor corner
and its successors are valid lattice indices on every axis), the
trilinearly interpolated value lies within the minimum and maximum of the
8 enclosing corner samples. -/
theorem interpolation_bounds (c : Cube) (p : Vector3) (i j k : ℤ)
    (v000 v100 v010 v110 v001 v101 v011 v111 : ℚ)
    (hfi : ratFloor ((p.x - c.m_min.x) / c.m_spacing.x) = i)
    (hfj : ratFloor ((p.y - c.m_min.y) / c.m_spacing.y) = j)
    (hfk : ratFloor ((p.z - c.m_min.z) / c.m_spacing.z) = k)
    (hi : 0 ≤ i) (hi2 : i + 1 < c.m_points.x)
    (hj : 0 ≤ j) (hj2 : j + 1 < c.m_points.y)
    (hk : 0 ≤ k) (hk2 : k + 1 < c.m_points.z)
    (h000 : c.valueOpt i j k = some v000)
    (h100 : c.valueOpt (i + 1) j k = some v100)
    (h010 : c.valueOpt i (j + 1) k = some v010)
    (h110 : c.valueOpt (i + 1) (j + 1) k = some v110)
    (h001 : c.valueOpt i j (k + 1) = some v001)
    (h101 : c.valueOpt (i + 1) j (k + 1) = some v101)
    (h011 : c.valueOpt i (j + 1) (k + 1) = some v011)
    (h111 : c.valueOpt (i + 1) (j + 1) (k + 1) = some v111) :
    ∃ r, c.value p = some r ∧
      min (min (min v000 v100) (min v010 v110))
          (min (min v001 v101) (min v011 v111)) ≤ r ∧
      r ≤ max (max (max v000 v100) (max v010 v110))
          (max (max v001 v101) (max v011 v111)) := by
  have hci : clampIdx i c.m_points.x = i :=
    clampIdx_of_mem i _ hi (by omega)
  have hci1 : clampIdx (i + 1) c.m_points.x = i + 1 :=
    clampIdx_of_mem (i + 1) _ (by omega) hi2
  have hcj : clampIdx j c.m_points.y = j :=
    clampIdx_of_mem j _ hj (by omega)
  have hcj1 : clampIdx (j + 1) c.m_points.y = j + 1 :=
    clampIdx_of_mem (j + 1) _ (by omega) hj2
  have hck : clampIdx k c.m_points.z = k :=
    clampIdx_of_mem k _ hk (by omega)
  have hck1 : clampIdx (k + 1) c.m_points.z = k + 1 :=
    clampIdx_of_mem (k + 1) _ (by omega) hk2
  have hfi2 : (⌊(p.x - c.m_min.x) / c.m_spacing.x⌋ : ℤ) = i := by
    rw [← ratFloor_eq]
    exact hfi
  have hfj2 : (⌊(p.y - c.m_min.y) / c.m_spacing.y⌋ : ℤ) = j := by
    rw [← ratFloor_eq]
    exact hfj
  have hfk2 : (⌊(p.z - c.m_min.z) / c.m_spacing.z⌋ : ℤ) = k := by
    rw [← ratFloor_eq]
    exact hfk
  have htx0 : 0 ≤ (p.x - c.m_min.x) / c.m_spacing.x - (i : ℚ) := by
    have := Int.floor_le ((p.x - c.m_min.x) / c.m_spacing.x)
    rw [hfi2] at this
    linarith
  have htx1 : (p.x - c.m_min.x) / c.m_spacing.x - (i : ℚ) ≤ 1 := by
    have := Int.lt_floor_add_one ((p.x - c.m_min.x) / c.m_spacing.x)
    rw [hfi2] at this
    linarith
  have hty0 : 0 ≤ (p.y - c.m_min.y) / c.m_spacing.y - (j : ℚ) := by
    have := Int.floor_le ((p.y - c.m_min.y) / c.m_spacing.y)
    rw [hfj2] at this
    linarith
  have hty1 : (p.y - c.m_min.y) / c.m_spacing.y - (j : ℚ) ≤ 1 := by
    have := Int.lt_floor_add_one ((p.y - c.m_min.y) / c.m_spacing.y)
    rw [hfj2] at this
    linarith
  have htz0 : 0 ≤ (p.z - c.m_min.z) / c.m_spacing.z - (k : ℚ) := by
    have := Int.floor_le ((p.z - c.m_min.z) / c.m_spacing.z)
    rw [hfk2] at this
    linarith
  have htz1 : (p.z - c.m_min.z) / c.m_spacing.z - (k : ℚ) ≤ 1 := by
    have := Int.lt_floor_add_one ((p.z - c.m_min.z) / c.m_spacing.z)
    rw [hfk2] at this
    linarith
  have m000 : min (min (min v000 v100) (min v010 v110))
      (min (min v001 v101) (min v011 v111)) ≤ v000 := by
    simp [min_le_iff]
  have m100 : min (min (min v000 v100) (min v010 v110))
      (min (min v001 v101) (min v011 v111)) ≤ v100 := by
    simp [min_le_iff]
  have m010 : min (min (min v000 v100) (min v010 v110))
      (min (min v001 v101) (min v011 v111)) ≤ v010 := by
    simp [min_le_iff]
  have m110 : min (min (min v000 v100) (min v010 v110))
      (min (min v001 v101) (min v011 v111)) ≤ v110 := by
    simp [min_le_iff]
  have m001 : min (min (min v000 v100) (min v010 v110))
      (min (min v001 v101) (min v011 v111)) ≤ v001 := by
    simp [min_le_iff]
  have m101 : min (min (min v000 v100) (min v010 v110))
      (min (min v001 v101) (min v011 v111)) ≤ v101 := by
    simp [min_le_iff]
  have m011 : min (min (min v000 v100) (min v010 v110))
      (min (min v001 v101) (min v011 v111)) ≤ v011 := by
    simp [min_le_iff]
  have m111 : min (min (min v000 v100) (min v010 v110))
      (min (min v001 v101) (min v011 v111)) ≤ v111 := by
    simp [min_le_iff]
  have x000 : v000 ≤ max (max (max v000 v100) (max v010 v110))
      (max (max v001 v101) (max v011 v111)) := by
    simp [le_max_iff]
  have x100 : v100 ≤ max (max (max v000 v100) (max v010 v110))
      (max (max v001 v101) (max v011 v111)) := by
    simp [le_max_iff]
  have x010 : v010 ≤ max (max (max v000 v100) (max v010 v110))
      (max (max v001 v101) (max v011 v111)) := by
    simp [le_max_iff]
  have x110 : v110 ≤ max (max (max v000 v100) (max v010 v110))
      (max (max v001 v101) (max v011 v111)) := by
    simp [le_max_iff]
  have x001 : v001 ≤ max (max (max v000 v100) (max v010 v110))
      (max (max v001 v101) (max v011 v111)) := by
    simp [le_max_iff]
  have x101 : v101 ≤ max (max (max v000 v100) (max v010 v110))
      (max (max v001 v101) (max v011 v111)) := by
    simp [le_max_iff]
  have x011 : v011 ≤ max (max (max v000 v100) (max v010 v110))
      (max (max v001 v101) (max v011 v111)) := by
    simp [le_max_iff]
  have x111 : v111 ≤ max (max (max v000 v100) (max v010 v110))
      (max (max v001 v101) (max v011 v111)) := by
    simp [le_max_iff]
  unfold Cube.value
  simp only [Cube.trilinear, hfi, hfj, hfk, hci, hci1, hcj, hcj1, hck,
    hck1, h000, h100, h010, h110, h001, h101, h011, h111, Option.some_bind]
  refine ⟨_, rfl, ?_, ?_⟩
  · exact le_lerp _ _ _ _ htz0 htz1
      (le_lerp _ _ _ _ hty0 hty1
        (le_lerp _ _ _ _ htx0 htx1 m000 m100)
        (le_lerp _ _ _ _ htx0 htx1 m010 m110))
      (le_lerp _ _ _ _ hty0 hty1
        (le_lerp _ _ _ _ htx0 htx1 m001 m101)
        (le_lerp _ _ _ _ htx0 htx1 m011 m111))
  · exact lerp_le _ _ _ _ htz0 htz1
      (lerp_le _ _ _ _ hty0 hty1
        (lerp_le _ _ _ _ htx0 htx1 x000 x100)
        (lerp_le _ _ _ _ htx0 htx1 x010 x110))
      (lerp_le _ _ _ _ hty0 hty1
        (lerp_le _ _ _ _ htx0 htx1 x001 x101)
        (lerp_le _ _ _ _ htx0 htx1 x011 x111))

/-- Witness for C8: the center of the only cell of the filled 2×2×2 grid
interpolates to a value between the minimum 1 and maximum 8 of its 8
corner samples. -/
theorem interpolation_bounds_witness :
    ∃ r, cube8.value ⟨1 / 2, 1 / 2, 1 / 2⟩ = some r ∧
      min (min (min 1 5) (min 3 7)) (min (min 2 6) (min 4 8)) ≤ r ∧
      r ≤ max (max (max (1 : ℚ) 5) (max 3 7))
          (max (max 2 6) (max 4 8)) :=
  interpolation_bounds cube8 ⟨1 / 2, 1 / 2, 1 / 2⟩ 0 0 0 1 5 3 7 2 6 4 8
    (by norm_num [cube8, cube2, cube0, Cube.setData, Cube.setLimitsPoints,
       axisSpacing, show Int.toNat 2 = 2 from rfl, ratFloor_eq,
       Int.floor_eq_iff])
    (by norm_num [cube8, cube2, cube0, Cube.setData, Cube.setLimitsPoints,
       axisSpacing, show Int.toNat 2 = 2 from rfl, ratFloor_eq,
       Int.floor_eq_iff])
    (by norm_num [cube8, cube2, cube0, Cube.setData, Cube.setLimitsPoints,
       axisSpacing, show Int.toNat 2 = 2 from rfl, ratFloor_eq,
       Int.floor_eq_iff])
    (by decide) (by decide) (by decide) (by decide) (by decide) (by decide)
    (by decide) (by decide) (by decide) (by decide) (by decide) (by decide)
    (by decide) (by decide)

end AvogadroCube
